import Mathlib

/-!
# ChainForgeLedger — verification of the chain-integrity core

A shallow embedding of the staking/reward ledger (`core/staking.py`), fork
detection and resolution (`core/fork.py`), difficulty retargeting
(`core/difficulty.py`), validator slashing (`consensus/slashing.py`) and the
consensus factory dispatch (`consensus/interface.py`), together with theorems
settling the specified behavioural claims.

Modelling conventions: Python integers become `ℤ`/`ℕ`, Python floats are
modelled as exact rationals `ℚ`, Python dicts (which preserve insertion order)
become association lists updated in place / appended at the end, and Python
exceptions become `Except` results (or an unchanged-state-plus-error pair
where the surrounding state survives the raise).
-/

namespace ChainForge

/-- Python `int(x)` applied to a nonnegative-or-negative rational: truncation
toward zero. -/
def pyInt (q : ℚ) : ℤ :=
  if 0 ≤ q then ⌊q⌋ else ⌈q⌉

/-- Python 3 `round(x)` to an integer: round half to even (banker's
rounding); away from the tie it is ordinary rounding to nearest. -/
def pyRound (q : ℚ) : ℤ :=
  if q - ⌊q⌋ = 1/2 then
    if ⌊q⌋ % 2 = 0 then ⌊q⌋ else ⌊q⌋ + 1
  else
    round q

/-- Association-list lookup by key (first match), mirroring a Python dict
read. -/
def alookup {α : Type} : List (String × α) → String → Option α
  | [], _ => none
  | (k, v) :: rest, key => if k = key then some v else alookup rest key

/-- Modelled from the spec: the external `Block` record
(`src/chainforgeledger/core/block.py` is not part of the provided sources).
Fields follow §3/§6 of the spec: index, previous_hash, hash, timestamp,
difficulty, nonce, validator; the transaction list is irrelevant to the
claims and is represented by its length. `Block.validate_block` is likewise
external and is passed around as an explicit `Block → Bool` parameter. -/
structure Block where
  index : ℤ
  previous_hash : String
  hash : String
  timestamp : ℚ
  difficulty : ℤ
  nonce : ℕ
  validator : String
  transactions : ℕ
deriving DecidableEq, Repr

/-- A default block used only to give list accessors a total type; every
theorem guards the relevant accesses so the default is never observed. -/
def defaultBlock : Block :=
  ⟨0, "", "", 0, 0, 0, "", 0⟩

/-! ## DifficultyAdjuster (`core/difficulty.py`) -/

/-- Configuration of `DifficultyAdjuster.__init__`. -/
structure DifficultyAdjuster where
  target_block_time : ℤ
  adjustment_interval : ℕ
  min_difficulty : ℤ
  max_difficulty : ℤ
  difficulty_change_limit : ℚ
deriving DecidableEq, Repr

/-- The Python slice `blocks[-interval:]`: the whole list when `interval`
is zero, otherwise the last `interval` entries. -/
def pySliceLast (interval : ℕ) (blocks : List Block) : List Block :=
  if interval = 0 then blocks else blocks.drop (blocks.length - interval)

/-- `DifficultyAdjuster.calculate_new_difficulty(blocks, current_difficulty)`.

Returns `none` where the Python code raises: `ZeroDivisionError` when
`expected_time` is zero or when `time_ratio` is zero (i.e. the first and last
window timestamps coincide), and `IndexError` when the slice is empty.
The slice `blocks[-adjustment_interval:]` (see `pySliceLast`) is the whole
list when the interval is zero and otherwise the last `adjustment_interval`
entries. -/
def DifficultyAdjuster.calculate_new_difficulty (da : DifficultyAdjuster)
    (blocks : List Block) (current_difficulty : ℤ) : Option ℤ :=
  if blocks.length < da.adjustment_interval then
    some current_difficulty
  else
    match (pySliceLast da.adjustment_interval blocks).head?,
          (pySliceLast da.adjustment_interval blocks).getLast? with
    | some b0, some bl =>
      let actual_time : ℚ := bl.timestamp - b0.timestamp
      let expected_time : ℚ := (da.target_block_time * da.adjustment_interval : ℤ)
      if expected_time = 0 then none
      else
        let tr := actual_time / expected_time
        if tr = 0 then none
        else
          let nd : ℚ := (current_difficulty : ℚ) / tr
          let max_increase : ℚ := current_difficulty * (1 + da.difficulty_change_limit)
          let max_decrease : ℚ := current_difficulty * (1 - da.difficulty_change_limit)
          let nd1 := max (min nd max_increase) max_decrease
          let nd2 := max (min nd1 (da.max_difficulty : ℚ)) (da.min_difficulty : ℚ)
          some (pyRound nd2)
    | _, _ => none

/-! ## ForkHandler (`core/fork.py`) -/

/-- A detected-fork record (`fork_info` dict in `ForkHandler.detect_fork`). -/
structure ForkInfo where
  common_ancestor_index : ℕ
  common_ancestor_hash : String
  local_fork_length : ℕ
  peer_fork_length : ℕ
  detection_time : ℚ
deriving DecidableEq, Repr

/-- `ForkHandler` state. Modelled from the spec where it touches the external
`Blockchain` collaborator (not among the provided sources): the blockchain is
its ordered block list `chain` plus the hash→block index `block_hash_map`,
both owned here since only the fork handler's swap path mutates them. -/
structure ForkHandler where
  chain : List Block
  block_hash_map : List (String × Block)
  fork_threshold : ℕ
  resolution_strategy : String
  forks : List ForkInfo
deriving DecidableEq, Repr

def ForkHandler.RESOLUTION_STRATEGIES : List String :=
  ["longest_chain", "cumulative_difficulty", "latest_timestamp"]

/-- The common-ancestor scan of `detect_fork`: walk both chains from index
zero while hashes match, remembering the last matching index; stop at the
first mismatch or when either chain is exhausted. -/
def commonAncestorAux : List Block → List Block → ℕ → Option ℕ → Option ℕ
  | a :: as, b :: bs, i, acc =>
    if a.hash = b.hash then commonAncestorAux as bs (i + 1) (some i) else acc
  | _, _, _, acc => acc

/-- Hash of the block at index `i` (total via a default that no guarded
access ever observes). -/
def hashAt (c : List Block) (i : ℕ) : String :=
  (c.getD i defaultBlock).hash

/-- `ForkHandler.detect_fork(peer_chain)`; the wall-clock read becomes the
explicit `now` argument. -/
def ForkHandler.detect_fork (h : ForkHandler) (peer_chain : List Block)
    (now : ℚ) : ForkHandler × Bool :=
  if peer_chain.length < 2 ∨ h.chain.length < 2 then (h, false)
  else
    match commonAncestorAux h.chain peer_chain 0 none with
    | none => (h, false)
    | some ca =>
      if ca < min h.chain.length peer_chain.length - 1 then
        if h.fork_threshold ≤ h.chain.length - ca - 1 ∨
            h.fork_threshold ≤ peer_chain.length - ca - 1 then
          ({h with forks := h.forks ++
            [⟨ca, hashAt h.chain ca, h.chain.length - ca - 1,
              peer_chain.length - ca - 1, now⟩]}, true)
        else (h, false)
      else (h, false)

/-- The loop body of `ForkHandler._is_chain_valid`, carrying the previous
block: index continuity, `previous_hash` linkage and per-block validation,
in source order. `Block.validate_block` is external code (`core/block.py` is
not among the provided sources) and is the parameter `validate`. -/
def chainValidFrom (validate : Block → Bool) : Block → List Block → Bool
  | _, [] => true
  | prev, b :: rest =>
    decide (b.index = prev.index + 1) && decide (b.previous_hash = prev.hash) &&
      validate b && chainValidFrom validate b rest

/-- `ForkHandler._is_chain_valid(chain)`. -/
def ForkHandler._is_chain_valid (validate : Block → Bool) :
    List Block → Bool
  | [] => true
  | b :: rest => chainValidFrom validate b rest

/-- `ForkHandler._update_block_hash_map`: the hash→block index rebuilt from
a chain. -/
def buildHashMap (chain : List Block) : List (String × Block) :=
  chain.map (fun b => (b.hash, b))

/-- Sum of per-block difficulty, as in `_resolve_by_difficulty`. -/
def cumulativeDifficulty (chain : List Block) : ℤ :=
  (chain.map Block.difficulty).sum

/-- `ForkHandler._resolve_by_length(peer_chain)`. -/
def ForkHandler._resolve_by_length (h : ForkHandler) (validate : Block → Bool)
    (peer_chain : List Block) : ForkHandler × Bool :=
  if h.chain.length < peer_chain.length then
    if ForkHandler._is_chain_valid validate peer_chain then
      ({h with chain := peer_chain, block_hash_map := buildHashMap peer_chain}, true)
    else (h, false)
  else (h, false)

/-- `ForkHandler._resolve_by_difficulty(peer_chain)`. -/
def ForkHandler._resolve_by_difficulty (h : ForkHandler) (validate : Block → Bool)
    (peer_chain : List Block) : ForkHandler × Bool :=
  if cumulativeDifficulty h.chain < cumulativeDifficulty peer_chain then
    if ForkHandler._is_chain_valid validate peer_chain then
      ({h with chain := peer_chain, block_hash_map := buildHashMap peer_chain}, true)
    else (h, false)
  else (h, false)

/-- `ForkHandler._resolve_by_timestamp(peer_chain)`; `get_last_block` of the
external blockchain is modelled from the spec as the chain's last block
(`chain[-1]`), reachable only with both chains of length ≥ 2. -/
def ForkHandler._resolve_by_timestamp (h : ForkHandler) (validate : Block → Bool)
    (peer_chain : List Block) : ForkHandler × Bool :=
  if (h.chain.getLastD defaultBlock).timestamp <
      (peer_chain.getLastD defaultBlock).timestamp then
    if ForkHandler._is_chain_valid validate peer_chain then
      ({h with chain := peer_chain, block_hash_map := buildHashMap peer_chain}, true)
    else (h, false)
  else (h, false)

/-- `ForkHandler.resolve_fork(peer_chain)`: `.error` models the
`ValueError` raised on an unrecognised resolution strategy. -/
def ForkHandler.resolve_fork (h : ForkHandler) (validate : Block → Bool)
    (peer_chain : List Block) (now : ℚ) : Except String (ForkHandler × Bool) :=
  if (h.detect_fork peer_chain now).2 = false then
    .ok ((h.detect_fork peer_chain now).1, false)
  else if (h.detect_fork peer_chain now).1.resolution_strategy = "longest_chain" then
    .ok ((h.detect_fork peer_chain now).1._resolve_by_length validate peer_chain)
  else if (h.detect_fork peer_chain now).1.resolution_strategy = "cumulative_difficulty" then
    .ok ((h.detect_fork peer_chain now).1._resolve_by_difficulty validate peer_chain)
  else if (h.detect_fork peer_chain now).1.resolution_strategy = "latest_timestamp" then
    .ok ((h.detect_fork peer_chain now).1._resolve_by_timestamp validate peer_chain)
  else
    .error ("Unknown resolution strategy: " ++
      (h.detect_fork peer_chain now).1.resolution_strategy)

/-- The strict comparator applied by the configured resolution strategy:
chain length, cumulative difficulty, or last-block timestamp. -/
def strictlyBetter (strategy : String) (c p : List Block) : Bool :=
  if strategy = "longest_chain" then decide (c.length < p.length)
  else if strategy = "cumulative_difficulty" then
    decide (cumulativeDifficulty c < cumulativeDifficulty p)
  else if strategy = "latest_timestamp" then
    decide ((c.getLastD defaultBlock).timestamp <
      (p.getLastD defaultBlock).timestamp)
  else false

/-! ## SlashingMechanism (`consensus/slashing.py`) -/

/-- One entry of a validator's `behavior_history`. -/
structure BehaviorRecord where
  timestamp : ℚ
  block_height : Option ℤ
  behavior : String
deriving DecidableEq, Repr

/-- The per-validator record held in `validator_history`. -/
structure ValidatorHistory where
  offline_count : ℕ
  invalid_blocks : ℕ
  valid_blocks : ℕ
  last_slash_time : ℚ
  behavior_history : List BehaviorRecord
deriving DecidableEq, Repr

/-- An immutable slashing event appended to `slashing_events`. -/
structure SlashEvent where
  validator_address : String
  reason : String
  amount : ℚ
  block_height : Option ℤ
  timestamp : ℚ
deriving DecidableEq, Repr

/-- `SlashingMechanism` state. -/
structure SlashingMechanism where
  validator_history : List (String × ValidatorHistory)
  slashing_events : List SlashEvent
  slash_amounts : List (String × ℚ)
  offline_threshold : ℕ
  slash_cooldown : ℚ
deriving DecidableEq, Repr

def SlashingMechanism.SLASH_REASONS : List String :=
  ["double_signing", "validator_offline", "invalid_block",
   "proposal_manipulation", "vote_manipulation", "protocol_violation"]

def DEFAULT_SLASH_AMOUNTS : List (String × ℚ) :=
  [("double_signing", 1/2), ("validator_offline", 1/20), ("invalid_block", 1/4),
   ("proposal_manipulation", 3/10), ("vote_manipulation", 1/5),
   ("protocol_violation", 2/5)]

/-- `SlashingMechanism.__init__`. -/
def SlashingMechanism.init : SlashingMechanism :=
  ⟨[], [], DEFAULT_SLASH_AMOUNTS, 3, 86400⟩

/-- The history entry created for a previously unseen validator. -/
def freshHistory : ValidatorHistory :=
  ⟨0, 0, 0, 0, []⟩

/-- The `validator_history` update at the end of `slash_validator`: create a
fresh record if the validator is unknown (appended at the end, as a new dict
key), then set its `last_slash_time`. -/
def slashUpdateHistory : List (String × ValidatorHistory) → String → ℚ →
    List (String × ValidatorHistory)
  | [], v, t => [(v, {freshHistory with last_slash_time := t})]
  | (k, r) :: rest, v, t =>
    if k = v then (k, {r with last_slash_time := t}) :: rest
    else (k, r) :: slashUpdateHistory rest v t

/-- The two exception kinds of `slash_validator`: `ValueError` for an
unrecognised reason, a policy-violation `Exception` for a slash inside the
cooldown window. -/
inductive SlashErr where
  | invalidReason
  | cooldownActive
deriving DecidableEq, Repr

/-- The mutation performed by `slash_validator` once its guards have passed:
the default amount is taken from `slash_amounts` when none is supplied,
clamped to `[0, 1]`; the event is appended to `slashing_events`; the
validator's `last_slash_time` is set to the event timestamp. -/
def slashApply (s : SlashingMechanism) (validator_address reason : String)
    (amount : Option ℚ) (block_height : Option ℤ) (now : ℚ) :
    SlashingMechanism × Except SlashErr SlashEvent :=
  ({s with
      slashing_events := s.slashing_events ++
        [⟨validator_address, reason,
          max 0 (min 1 (amount.getD ((alookup s.slash_amounts reason).getD 0))),
          block_height, now⟩],
      validator_history :=
        slashUpdateHistory s.validator_history validator_address now},
   .ok ⟨validator_address, reason,
        max 0 (min 1 (amount.getD ((alookup s.slash_amounts reason).getD 0))),
        block_height, now⟩)

/-- `SlashingMechanism.slash_validator(validator_address, reason, amount,
block_height)`; the wall clock is the explicit `now`. A raise leaves the
state unchanged, hence the state-plus-`Except` result. -/
def SlashingMechanism.slash_validator (s : SlashingMechanism)
    (validator_address reason : String) (amount : Option ℚ)
    (block_height : Option ℤ) (now : ℚ) :
    SlashingMechanism × Except SlashErr SlashEvent :=
  if reason ∈ SlashingMechanism.SLASH_REASONS then
    match alookup s.validator_history validator_address with
    | some hist =>
      if now - hist.last_slash_time < s.slash_cooldown then
        (s, .error .cooldownActive)
      else
        slashApply s validator_address reason amount block_height now
    | none => slashApply s validator_address reason amount block_height now
  else
    (s, .error .invalidReason)

/-- `SlashingMechanism.is_validator_eligible(validator_address)`. -/
def SlashingMechanism.is_validator_eligible (s : SlashingMechanism)
    (validator_address : String) (now : ℚ) : Bool :=
  match alookup s.validator_history validator_address with
  | none => true
  | some hist => decide (¬ (now - hist.last_slash_time < s.slash_cooldown))

/-- Number of slashing events recorded for one validator. -/
def eventsFor (s : SlashingMechanism) (v : String) : ℕ :=
  (s.slashing_events.filter (fun e => e.validator_address == v)).length

/-! ## ConsensusFactory (`consensus/interface.py`) -/

/-- The four strategy instances `ConsensusFactory.create` can build, with
the constructor parameters the factory reads from its keyword arguments
(`difficulty` defaults to 3, `f` to 1; the validator/delegate manager
references carry no data relevant here). -/
inductive ConsensusInstance where
  | pow (difficulty : ℤ)
  | pos
  | dpos
  | pbft (f : ℤ)
deriving DecidableEq, Repr

def ConsensusFactory.CONSENSUS_TYPES : List String :=
  ["pow", "pos", "dpos", "pbft"]

/-- `ConsensusFactory.create(consensus_type, **kwargs)`: `.error` models the
`ValueError` raised on an unknown consensus type. -/
def ConsensusFactory.create (consensus_type : String)
    (difficulty : Option ℤ) (f : Option ℤ) : Except String ConsensusInstance :=
  if consensus_type = "pow" then .ok (.pow (difficulty.getD 3))
  else if consensus_type = "pos" then .ok .pos
  else if consensus_type = "dpos" then .ok .dpos
  else if consensus_type = "pbft" then .ok (.pbft (f.getD 1))
  else .error ("Unknown consensus type: " ++ consensus_type)

/-! ## StakingPool (`core/staking.py`) -/

/-- An entry of the `unstaking_queue`. -/
structure UnstakeRequest where
  validator_address : String
  staker_address : String
  amount : ℤ
  request_time : ℚ
  release_time : ℚ
  completed : Bool
deriving DecidableEq, Repr

/-- An entry of `staking_history`. -/
structure StakingEvent where
  validator_address : String
  staker_address : String
  amount : ℤ
  timestamp : ℚ
  etype : String
deriving DecidableEq, Repr

/-- The `reward_distribution` parameter dict. -/
structure RewardDistribution where
  block_reward : ℤ
  transaction_fee_share : ℚ
  validator_share : ℚ
  delegator_share : ℚ
deriving DecidableEq, Repr

/-- A reward-distribution record emitted by `distribute_rewards` (and
appended to `reward_history`). -/
structure RewardRecord where
  validator_address : String
  recipient_address : String
  amount : ℤ
  rtype : String
  block_height : ℤ
  timestamp : ℚ
deriving DecidableEq, Repr

/-- `StakingPool` state (the treasury reference carries no data used by any
of its methods modelled here). Every operation keeps `validator_stakes` and
`delegator_stakes` holding exactly the same validator keys — both are
created together in `stake` and neither ever drops a validator key — and the
embedding of `stake`/`unstake` below relies on that invariant exactly where
the Python indexes `delegator_stakes[validator_address]` unchecked. -/
structure StakingPool where
  total_stake : ℤ
  validator_stakes : List (String × ℤ)
  delegator_stakes : List (String × List (String × ℤ))
  reward_pool : ℤ
  staking_period : ℚ
  unstaking_lockup : ℚ
  validator_commission : ℚ
  min_stake : ℤ
  staking_history : List StakingEvent
  reward_history : List RewardRecord
  unstaking_queue : List UnstakeRequest
  reward_distribution : RewardDistribution
deriving DecidableEq, Repr

/-- `StakingPool.__init__` with the default parameters. -/
def StakingPool.init : StakingPool :=
  ⟨0, [], [], 0, 86400, 604800, 1/10, 100, [], [], [], ⟨50, 1/2, 7/10, 3/10⟩⟩

/-- Python `d.setdefault(key, dflt)` on an insertion-ordered dict: append the
key with the default value when absent. -/
def ensureKey {α : Type} (l : List (String × α)) (key : String) (d : α) :
    List (String × α) :=
  if (alookup l key).isSome then l else l ++ [(key, d)]

/-- In-place update of one key's value (a no-op when the key is absent;
every use below first ensures or checks presence, as the Python does). -/
def updKey {α : Type} : List (String × α) → String → (α → α) →
    List (String × α)
  | [], _, _ => []
  | (k1, v) :: rest, key, f =>
    if k1 = key then (k1, f v) :: updKey rest key f
    else (k1, v) :: updKey rest key f

/-- Python `del d[key]`. -/
def removeKey {α : Type} (l : List (String × α)) (key : String) :
    List (String × α) :=
  l.filter (fun p => p.1 != key)

/-- `StakingPool.stake(validator_address, staker_address, amount)`. -/
def StakingPool.stake (s : StakingPool) (validator_address staker_address : String)
    (amount : ℤ) (now : ℚ) : StakingPool × Bool :=
  if amount < 1 then (s, false)
  else if validator_address = staker_address ∧ amount < s.min_stake then (s, false)
  else
    let s1 := {s with
      validator_stakes := ensureKey s.validator_stakes validator_address 0,
      delegator_stakes := ensureKey s.delegator_stakes validator_address []}
    let s2 :=
      if validator_address = staker_address then
        {s1 with validator_stakes := updKey s1.validator_stakes validator_address (· + amount)}
      else
        {s1 with delegator_stakes := updKey s1.delegator_stakes validator_address (fun inner => updKey (ensureKey inner staker_address 0) staker_address (· + amount))}
    ({s2 with
        total_stake := s2.total_stake + amount,
        staking_history := s2.staking_history ++
          [⟨validator_address, staker_address, amount, now, "stake"⟩]}, true)

/-- `StakingPool.get_staker_stake(validator_address, staker_address)`. -/
def StakingPool.get_staker_stake (s : StakingPool)
    (validator_address staker_address : String) : ℤ :=
  if validator_address = staker_address then
    (alookup s.validator_stakes validator_address).getD 0
  else
    (alookup ((alookup s.delegator_stakes validator_address).getD [])
      staker_address).getD 0

/-- `StakingPool.unstake(validator_address, staker_address, amount)`: checks
the requested amount against the currently recorded balance only, then
enqueues; no balance is reduced yet. -/
def StakingPool.unstake (s : StakingPool) (validator_address staker_address : String)
    (amount : ℤ) (now : ℚ) : StakingPool × Bool :=
  if amount < 1 then (s, false)
  else
    match alookup s.validator_stakes validator_address with
    | none => (s, false)
    | some vstake =>
      if validator_address = staker_address then
        if vstake < amount then (s, false)
        else
          ({s with
              unstaking_queue := s.unstaking_queue ++
                [⟨validator_address, staker_address, amount, now,
                  now + s.unstaking_lockup, false⟩],
              staking_history := s.staking_history ++
                [⟨validator_address, staker_address, -amount, now, "unstake"⟩]},
            true)
      else
        match alookup ((alookup s.delegator_stakes validator_address).getD [])
            staker_address with
        | none => (s, false)
        | some dstake =>
          if dstake < amount then (s, false)
          else
            ({s with
                unstaking_queue := s.unstaking_queue ++
                  [⟨validator_address, staker_address, amount, now,
                    now + s.unstaking_lockup, false⟩],
                staking_history := s.staking_history ++
                  [⟨validator_address, staker_address, -amount, now, "unstake"⟩]},
              true)

/-- The loop of `process_unstaking`, walking the queue in order: each
uncompleted request past its release time has its amount removed from the
corresponding balance (deleting a delegator entry that reaches zero) and from
the global total, and is flagged completed and collected. Returns the
rewritten queue, the updated pool (queue field untouched here) and the
processed requests; `.error` models the `KeyError` on a stale delegator
entry. -/
def processQueue (now : ℚ) :
    List UnstakeRequest → StakingPool →
    Except Unit (List UnstakeRequest × StakingPool × List UnstakeRequest)
  | [], s => .ok ([], s, [])
  | req :: rest, s =>
    if ¬ req.completed ∧ req.release_time ≤ now then
      if req.validator_address = req.staker_address then
        match alookup s.validator_stakes req.validator_address with
        | none => .error ()
        | some _ =>
          match processQueue now rest {s with
              validator_stakes := updKey s.validator_stakes req.validator_address (· - req.amount),
              total_stake := s.total_stake - req.amount} with
          | .error e => .error e
          | .ok (q, s2, proc) =>
            .ok ({req with completed := true} :: q, s2,
              {req with completed := true} :: proc)
      else
        match alookup s.delegator_stakes req.validator_address with
        | none => .error ()
        | some inner =>
          match alookup inner req.staker_address with
          | none => .error ()
          | some d =>
            match processQueue now rest {s with
                delegator_stakes := updKey s.delegator_stakes req.validator_address (fun innerNow => if d - req.amount = 0 then removeKey (updKey innerNow req.staker_address (· - req.amount)) req.staker_address else updKey innerNow req.staker_address (· - req.amount)),
                total_stake := s.total_stake - req.amount} with
            | .error e => .error e
            | .ok (q, s2, proc) =>
              .ok ({req with completed := true} :: q, s2,
                {req with completed := true} :: proc)
    else
      match processQueue now rest s with
      | .error e => .error e
      | .ok (q, s2, proc) => .ok (req :: q, s2, proc)

/-- `StakingPool.process_unstaking()`. -/
def StakingPool.process_unstaking (s : StakingPool) (now : ℚ) :
    Except Unit (StakingPool × List UnstakeRequest) :=
  match processQueue now s.unstaking_queue s with
  | .error e => .error e
  | .ok (q, s2, proc) => .ok ({s2 with unstaking_queue := q}, proc)

/-- `StakingPool.add_rewards(block_reward, transaction_fees)`. -/
def StakingPool.add_rewards (s : StakingPool)
    (block_reward transaction_fees : ℤ) : StakingPool × ℤ :=
  ({s with reward_pool := s.reward_pool + block_reward + pyInt ((transaction_fees : ℚ) * s.reward_distribution.transaction_fee_share)},
   block_reward +
      pyInt ((transaction_fees : ℚ) * s.reward_distribution.transaction_fee_share))

/-- The delegator loop of `distribute_rewards` for one validator: every
delegator other than the validator itself receives
`int(delegator_rewards × (stake / validator_total_stake))`; `.error` models
the `ZeroDivisionError` when the validator's total stake is zero yet a
delegator entry exists. -/
def delegRecords (va : String) (vts : ℤ) (delegator_rewards : ℚ) (bh : ℤ)
    (now : ℚ) : List (String × ℤ) → Except Unit (List RewardRecord)
  | [] => .ok []
  | (da, dstake) :: rest =>
    if da = va then delegRecords va vts delegator_rewards bh now rest
    else if vts = 0 then .error ()
    else
      match delegRecords va vts delegator_rewards bh now rest with
      | .error e => .error e
      | .ok restRecs =>
        .ok (⟨va, da, pyInt (delegator_rewards * ((dstake : ℚ) / (vts : ℚ))),
          "delegator_reward", bh, now⟩ :: restRecs)

/-- The validator loop of `distribute_rewards`: per validator, the pool
share is (self + delegated stake) × reward_per_coin, split into
validator/delegator shares; the validator's record carries
`int(validator_rewards − commission)`; then the delegator records follow. -/
def valRecords (s : StakingPool) (reward_per_coin : ℚ) (bh : ℤ) (now : ℚ) :
    List (String × ℤ) → Except Unit (List RewardRecord)
  | [] => .ok []
  | (va, vstake) :: rest =>
    match delegRecords va
        (vstake + (((alookup s.delegator_stakes va).getD []).map Prod.snd).sum)
        (((vstake + (((alookup s.delegator_stakes va).getD []).map Prod.snd).sum : ℤ) : ℚ) *
          reward_per_coin * s.reward_distribution.delegator_share) bh now
        ((alookup s.delegator_stakes va).getD []) with
    | .error e => .error e
    | .ok ds =>
      match valRecords s reward_per_coin bh now rest with
      | .error e => .error e
      | .ok restRecs =>
        .ok ((⟨va, va,
          pyInt ((((vstake + (((alookup s.delegator_stakes va).getD []).map Prod.snd).sum : ℤ) : ℚ) *
              reward_per_coin * s.reward_distribution.validator_share) -
            (((vstake + (((alookup s.delegator_stakes va).getD []).map Prod.snd).sum : ℤ) : ℚ) *
              reward_per_coin * s.reward_distribution.validator_share) *
              s.validator_commission),
          "validator_reward", bh, now⟩ :: ds) ++ restRecs)

/-- `StakingPool.distribute_rewards(block_height)`: a no-op returning `[]`
when the pool or the total stake is zero; otherwise one full pass over all
validators and their delegators, after which the pool is reset to zero and
the records are appended to `reward_history`. -/
def StakingPool.distribute_rewards (s : StakingPool) (block_height : ℤ)
    (now : ℚ) : Except Unit (StakingPool × List RewardRecord) :=
  if s.reward_pool = 0 ∨ s.total_stake = 0 then .ok (s, [])
  else
    match valRecords s ((s.reward_pool : ℚ) / (s.total_stake : ℚ))
        block_height now s.validator_stakes with
    | .error e => .error e
    | .ok ds =>
      .ok ({s with reward_pool := 0, reward_history := s.reward_history ++ ds},
        ds)

/-! ## Concrete scenarios -/

/-- The pool after the validator "v" self-stakes 700. -/
def examplePool1 : StakingPool := (StakingPool.init.stake "v" "v" 700 0).1

/-- … and the delegator "d" stakes 300 with "v". -/
def examplePool2 : StakingPool := (examplePool1.stake "v" "d" 300 1).1

/-- … and 100 coins of block reward accumulate: the spec's concrete reward
scenario (total_stake 1000 = 700 self + 300 delegated, pool 100). -/
def rewardScenarioPool : StakingPool := (examplePool2.add_rewards 100 0).1

/-- The validator reward record the scenario produces. -/
def vRec63 : RewardRecord := ⟨"v", "v", 63, "validator_reward", 5, 9⟩

/-- The delegator reward record the scenario produces. -/
def dRec9 : RewardRecord := ⟨"v", "d", 9, "delegator_reward", 5, 9⟩

/-- The pool after the scenario's distribution pass. -/
def rewardScenarioPost : StakingPool :=
  {rewardScenarioPool with reward_pool := 0, reward_history := [vRec63, dRec9]}

/-- A pool where "w" self-staked 100. -/
def unstakePool1 : StakingPool := (StakingPool.init.stake "w" "w" 100 0).1

/-- … then requested unstaking the full 100. -/
def unstakePool2 : StakingPool := (unstakePool1.unstake "w" "w" 100 1).1

/-- … then requested unstaking the same 100 again. -/
def unstakePool3 : StakingPool := (unstakePool2.unstake "w" "w" 100 2).1

/-- Retargeting configuration: 60 s target, window 2, difficulty 1–20,
change limit 0.2. -/
def exampleDA : DifficultyAdjuster := ⟨60, 2, 1, 20, 1/5⟩

/-- A two-block window that took 100000 s instead of the expected 120 s. -/
def slowBlocks : List Block :=
  [⟨0, "", "g", 0, 3, 0, "", 0⟩, ⟨1, "g", "h", 100000, 3, 0, "", 0⟩]

/-- First of two blocks carrying the same timestamp. -/
def flatB0 : Block := ⟨0, "", "g", 5, 1, 0, "", 0⟩

/-- Second of two blocks carrying the same timestamp. -/
def flatB1 : Block := ⟨1, "g", "h", 5, 1, 0, "", 0⟩

/-- A window with zero elapsed time. -/
def flatBlocks : List Block := [flatB0, flatB1]

/-- A three-block local chain g → a1 → a2. -/
def localChain : List Block :=
  [⟨0, "", "g", 0, 1, 0, "", 0⟩, ⟨1, "g", "a1", 1, 1, 0, "", 0⟩,
   ⟨2, "a1", "a2", 2, 1, 0, "", 0⟩]

/-- A peer chain sharing only the genesis block: g → b1 → b2 → b3. -/
def peerChain4 : List Block :=
  [⟨0, "", "g", 0, 1, 0, "", 0⟩, ⟨1, "g", "b1", 1, 1, 0, "", 0⟩,
   ⟨2, "b1", "b2", 2, 1, 0, "", 0⟩, ⟨3, "b2", "b3", 3, 1, 0, "", 0⟩]

/-- A fork handler on the local chain, threshold 2, longest-chain rule. -/
def exampleFH : ForkHandler :=
  ⟨localChain, buildHashMap localChain, 2, "longest_chain", []⟩

/-- The fork record detected between `localChain` and `peerChain4`. -/
def forkInfoExample : ForkInfo := ⟨0, "g", 2, 3, 7⟩

/-- The handler after adopting `peerChain4`. -/
def swappedFH : ForkHandler :=
  ⟨peerChain4, buildHashMap peerChain4, 2, "longest_chain", [forkInfoExample]⟩

/-- A fork handler configured with an unrecognised resolution strategy. -/
def badStratFH : ForkHandler :=
  ⟨localChain, buildHashMap localChain, 2, "newest_chain", []⟩

/-- The slashing state after one successful slash of "m" at time 1000. -/
def slashS1 : SlashingMechanism :=
  (SlashingMechanism.init.slash_validator "m" "double_signing" none none 1000).1

/-- The event that slash records. -/
def slashEv1 : SlashEvent := ⟨"m", "double_signing", 1/2, none, 1000⟩

/-! ## Supporting lemmas and claim theorems -/

/-- `pyRound` never moves a value by more than one half. -/
lemma pyRound_dist (q : ℚ) : q - 1/2 ≤ (pyRound q : ℚ) ∧ (pyRound q : ℚ) ≤ q + 1/2 := by
  unfold pyRound
  have hfl := Int.floor_le q
  have hfu := Int.lt_floor_add_one q
  split
  case isTrue h =>
    split <;> constructor <;> push_cast <;> linarith
  case isFalse h =>
    have := abs_sub_round q
    rw [abs_le] at this
    constructor <;> linarith [this.1, this.2]

/-- `pyRound` of a value lying between two integers stays between them. -/
lemma pyRound_int_bounds {m M : ℤ} {q : ℚ} (h1 : (m : ℚ) ≤ q) (h2 : q ≤ (M : ℚ)) :
    m ≤ pyRound q ∧ pyRound q ≤ M := by
  have hmf : m ≤ ⌊q⌋ := Int.le_floor.mpr h1
  have hcM : ⌈q⌉ ≤ M := Int.ceil_le.mpr h2
  have hfc : ⌊q⌋ ≤ ⌈q⌉ := Int.floor_le_ceil q
  unfold pyRound
  split
  case isTrue h =>
    have hne : ⌊q⌋ + 1 ≤ M := by
      have : (⌊q⌋ : ℚ) < (M : ℚ) := by linarith [h2, h]
      have : ⌊q⌋ < M := by exact_mod_cast this
      omega
    split <;> omega
  case isFalse h =>
    have h1' : m ≤ round q := by
      rw [round_eq]
      have : (m : ℚ) ≤ q + 1/2 := by linarith
      exact Int.le_floor.mpr this
    have h2' : round q ≤ M := by
      rw [round_eq]
      have : ⌊q + 1/2⌋ ≤ ⌊(M : ℚ) + 1/2⌋ := Int.floor_le_floor (by linarith)
      have hM : ⌊(M : ℚ) + 1/2⌋ = M := by
        rw [Int.floor_int_add]
        norm_num
      omega
    exact ⟨h1', h2'⟩

/-- Claim C7 (amended): for block lists shorter than `adjustment_interval`
the current difficulty is returned unchanged; otherwise, whenever a value is
returned, it lies in `[min_difficulty, max_difficulty]` (for a sane
configuration `min ≤ max`), and — when the current difficulty itself lies in
`[min, max]` and the change limit is in `[0, 1]` — it lies within `1/2` of
the change-limit band `[D·(1-limit), D·(1+limit)]`: the final rounding to an
integer can move the result outside the band by at most one half. -/
theorem c7_calculate_new_difficulty_bounds
    (da : DifficultyAdjuster) (blocks : List Block) (D r : ℤ) :
    (blocks.length < da.adjustment_interval →
      da.calculate_new_difficulty blocks D = some D) ∧
    (da.calculate_new_difficulty blocks D = some r →
     da.adjustment_interval ≤ blocks.length →
     da.min_difficulty ≤ da.max_difficulty →
     (da.min_difficulty ≤ r ∧ r ≤ da.max_difficulty) ∧
     (0 ≤ da.min_difficulty → da.min_difficulty ≤ D → D ≤ da.max_difficulty →
      0 ≤ da.difficulty_change_limit → da.difficulty_change_limit ≤ 1 →
      (D : ℚ) * (1 - da.difficulty_change_limit) - 1/2 ≤ (r : ℚ) ∧
      (r : ℚ) ≤ (D : ℚ) * (1 + da.difficulty_change_limit) + 1/2)) := by
  constructor
  · intro hshort
    unfold DifficultyAdjuster.calculate_new_difficulty
    simp [hshort]
  · intro hr _hlen hminmax
    simp only [DifficultyAdjuster.calculate_new_difficulty] at hr
    split at hr
    case isTrue h => omega
    case isFalse h =>
      split at hr
      case h_2 => exact absurd hr (by simp)
      case h_1 b0 bl hb0 hbl =>
        split at hr
        case isTrue => exact absurd hr (by simp)
        case isFalse hexp =>
          split at hr
          case isTrue => exact absurd hr (by simp)
          case isFalse htr =>
            rw [Option.some_inj] at hr
            subst hr
            set nd : ℚ := (D : ℚ) /
              ((bl.timestamp - b0.timestamp) /
                ((da.target_block_time * da.adjustment_interval : ℤ) : ℚ)) with hnd
            set lo1 : ℚ := D * (1 - da.difficulty_change_limit) with hlo1
            set hi1 : ℚ := D * (1 + da.difficulty_change_limit) with hhi1
            set nd1 : ℚ := max (min nd hi1) lo1 with hnd1
            set nd2 : ℚ := max (min nd1 (da.max_difficulty : ℚ))
              (da.min_difficulty : ℚ) with hnd2
            have hminmaxQ : (da.min_difficulty : ℚ) ≤ (da.max_difficulty : ℚ) := by
              exact_mod_cast hminmax
            have h2lo : (da.min_difficulty : ℚ) ≤ nd2 := le_max_right _ _
            have h2hi : nd2 ≤ (da.max_difficulty : ℚ) :=
              max_le (min_le_right _ _) hminmaxQ
            refine ⟨pyRound_int_bounds h2lo h2hi, ?_⟩
            intro hmpos hDlo hDhi hcl0 hcl1
            have hD0 : (0 : ℚ) ≤ (D : ℚ) := by exact_mod_cast le_trans hmpos hDlo
            have hDloQ : (da.min_difficulty : ℚ) ≤ (D : ℚ) := by exact_mod_cast hDlo
            have hDhiQ : (D : ℚ) ≤ (da.max_difficulty : ℚ) := by exact_mod_cast hDhi
            have hDcl : 0 ≤ (D : ℚ) * da.difficulty_change_limit :=
              mul_nonneg hD0 hcl0
            have hloD : lo1 ≤ (D : ℚ) := by rw [hlo1]; nlinarith
            have hDhi1 : (D : ℚ) ≤ hi1 := by rw [hhi1]; nlinarith
            have hlohi : lo1 ≤ hi1 := le_trans hloD hDhi1
            have h1lo : lo1 ≤ nd1 := le_max_right _ _
            have h1hi : nd1 ≤ hi1 := max_le (min_le_right _ _) hlohi
            have h2lo' : lo1 ≤ nd2 :=
              le_max_of_le_left (le_min h1lo (le_trans hloD hDhiQ))
            have h2hi' : nd2 ≤ hi1 :=
              max_le (le_trans (min_le_left _ _) h1hi) (le_trans hDloQ hDhi1)
            have hdist := pyRound_dist nd2
            constructor <;> [skip; skip] <;> rw [hlo1] at h2lo' <;>
              rw [hhi1] at h2hi' <;> [linarith [hdist.1]; linarith [hdist.2]]

/-- Claim C10: when the adjustment window's first and last timestamps
coincide (zero elapsed time), `calculate_new_difficulty` does not return a
difficulty — the `current_difficulty / time_ratio` step raises
`ZeroDivisionError` (the computation is not total). -/
theorem c10_zero_elapsed_division_by_zero
    (da : DifficultyAdjuster) (blocks : List Block) (D : ℤ) (b0 bl : Block) :
    1 ≤ da.adjustment_interval →
    da.adjustment_interval ≤ blocks.length →
    (blocks.drop (blocks.length - da.adjustment_interval)).head? = some b0 →
    (blocks.drop (blocks.length - da.adjustment_interval)).getLast? = some bl →
    b0.timestamp = bl.timestamp →
    da.calculate_new_difficulty blocks D = none := by
  intro hpos hlen hhead hlast htime
  have hns : ¬ (blocks.length < da.adjustment_interval) := by omega
  have hnz : ¬ (da.adjustment_interval = 0) := by omega
  have hslice : pySliceLast da.adjustment_interval blocks =
      blocks.drop (blocks.length - da.adjustment_interval) := by
    rw [pySliceLast, if_neg hnz]
  have hzero : bl.timestamp - b0.timestamp = 0 := by rw [htime]; ring
  simp only [DifficultyAdjuster.calculate_new_difficulty, if_neg hns, hslice,
    hhead, hlast]
  split
  case isTrue => rfl
  case isFalse hexp => rw [hzero, zero_div, if_pos rfl]

/-- `detect_fork` only ever appends to the fork log: chain, hash index,
strategy and threshold are untouched. -/
lemma detect_fork_fields (h : ForkHandler) (p : List Block) (now : ℚ) :
    (h.detect_fork p now).1.chain = h.chain ∧
    (h.detect_fork p now).1.block_hash_map = h.block_hash_map ∧
    (h.detect_fork p now).1.resolution_strategy = h.resolution_strategy ∧
    (h.detect_fork p now).1.fork_threshold = h.fork_threshold := by
  unfold ForkHandler.detect_fork
  split
  · exact ⟨rfl, rfl, rfl, rfl⟩
  · split
    · exact ⟨rfl, rfl, rfl, rfl⟩
    · split
      · split
        · exact ⟨rfl, rfl, rfl, rfl⟩
        · exact ⟨rfl, rfl, rfl, rfl⟩
      · exact ⟨rfl, rfl, rfl, rfl⟩

/-- The common-ancestor scan returns the last index of the matching prefix:
with hashes agreeing below `k` and differing at `k` (both chains longer than
`k`), starting the scan at offset `i` yields `i + k - 1`, or the incoming
accumulator when the very first comparison fails. -/
lemma commonAncestorAux_spec :
    ∀ (k : ℕ) (c p : List Block) (i : ℕ) (acc : Option ℕ),
    k < c.length → k < p.length →
    (∀ j, j < k → hashAt c j = hashAt p j) →
    hashAt c k ≠ hashAt p k →
    commonAncestorAux c p i acc = if k = 0 then acc else some (i + k - 1) := by
  intro k
  induction k with
  | zero =>
    intro c p i acc hc hp _hpre hdiv
    match c, p with
    | a :: as, b :: bs =>
      have hne : ¬ a.hash = b.hash := by
        simpa [hashAt] using hdiv
      simp [commonAncestorAux, hne]
  | succ k ih =>
    intro c p i acc hc hp hpre hdiv
    match c, p with
    | a :: as, b :: bs =>
      have h0 : a.hash = b.hash := by
        simpa [hashAt] using hpre 0 (Nat.succ_pos k)
      have hpre' : ∀ j, j < k → hashAt as j = hashAt bs j := by
        intro j hj
        simpa [hashAt] using hpre (j + 1) (by omega)
      have hdiv' : hashAt as k ≠ hashAt bs k := by
        simpa [hashAt] using hdiv
      have := ih as bs (i + 1) (some i) (by simpa using hc) (by simpa using hp)
        hpre' hdiv'
      rw [commonAncestorAux, if_pos h0, this]
      by_cases hk : k = 0
      · subst hk; simp
      · rw [if_neg hk, if_neg (by omega : ¬ k + 1 = 0)]
        congr 1
        omega

lemma resolve_by_length_spec (h1 : ForkHandler) (validate : Block → Bool)
    (peer : List Block) (h' : ForkHandler) (b : Bool) :
    h1._resolve_by_length validate peer = (h', b) →
    (b = true → ForkHandler._is_chain_valid validate peer = true ∧
      h1.chain.length < peer.length ∧
      h'.chain = peer ∧ h'.block_hash_map = buildHashMap peer) ∧
    (b = false → h' = h1) := by
  intro hres
  unfold ForkHandler._resolve_by_length at hres
  split at hres
  case isTrue hlen =>
    split at hres
    case isTrue hvalid =>
      rw [Prod.mk.injEq] at hres
      obtain ⟨he, hb⟩ := hres
      subst he; subst hb
      exact ⟨fun _ => ⟨hvalid, hlen, rfl, rfl⟩, fun hf => nomatch hf⟩
    case isFalse hvalid =>
      rw [Prod.mk.injEq] at hres
      obtain ⟨he, hb⟩ := hres
      subst he; subst hb
      exact ⟨(fun ht => nomatch ht), fun _ => rfl⟩
  case isFalse hlen =>
    rw [Prod.mk.injEq] at hres
    obtain ⟨he, hb⟩ := hres
    subst he; subst hb
    exact ⟨(fun ht => nomatch ht), fun _ => rfl⟩

lemma resolve_by_difficulty_spec (h1 : ForkHandler) (validate : Block → Bool)
    (peer : List Block) (h' : ForkHandler) (b : Bool) :
    h1._resolve_by_difficulty validate peer = (h', b) →
    (b = true → ForkHandler._is_chain_valid validate peer = true ∧
      cumulativeDifficulty h1.chain < cumulativeDifficulty peer ∧
      h'.chain = peer ∧ h'.block_hash_map = buildHashMap peer) ∧
    (b = false → h' = h1) := by
  intro hres
  unfold ForkHandler._resolve_by_difficulty at hres
  split at hres
  case isTrue hlen =>
    split at hres
    case isTrue hvalid =>
      rw [Prod.mk.injEq] at hres
      obtain ⟨he, hb⟩ := hres
      subst he; subst hb
      exact ⟨fun _ => ⟨hvalid, hlen, rfl, rfl⟩, fun hf => nomatch hf⟩
    case isFalse hvalid =>
      rw [Prod.mk.injEq] at hres
      obtain ⟨he, hb⟩ := hres
      subst he; subst hb
      exact ⟨(fun ht => nomatch ht), fun _ => rfl⟩
  case isFalse hlen =>
    rw [Prod.mk.injEq] at hres
    obtain ⟨he, hb⟩ := hres
    subst he; subst hb
    exact ⟨(fun ht => nomatch ht), fun _ => rfl⟩

lemma resolve_by_timestamp_spec (h1 : ForkHandler) (validate : Block → Bool)
    (peer : List Block) (h' : ForkHandler) (b : Bool) :
    h1._resolve_by_timestamp validate peer = (h', b) →
    (b = true → ForkHandler._is_chain_valid validate peer = true ∧
      (h1.chain.getLastD defaultBlock).timestamp <
        (peer.getLastD defaultBlock).timestamp ∧
      h'.chain = peer ∧ h'.block_hash_map = buildHashMap peer) ∧
    (b = false → h' = h1) := by
  intro hres
  unfold ForkHandler._resolve_by_timestamp at hres
  split at hres
  case isTrue hlen =>
    split at hres
    case isTrue hvalid =>
      rw [Prod.mk.injEq] at hres
      obtain ⟨he, hb⟩ := hres
      subst he; subst hb
      exact ⟨fun _ => ⟨hvalid, hlen, rfl, rfl⟩, fun hf => nomatch hf⟩
    case isFalse hvalid =>
      rw [Prod.mk.injEq] at hres
      obtain ⟨he, hb⟩ := hres
      subst he; subst hb
      exact ⟨(fun ht => nomatch ht), fun _ => rfl⟩
  case isFalse hlen =>
    rw [Prod.mk.injEq] at hres
    obtain ⟨he, hb⟩ := hres
    subst he; subst hb
    exact ⟨(fun ht => nomatch ht), fun _ => rfl⟩

/-- Claim C5: with both chains agreeing on their first `k ≥ 1` hashes and
disagreeing at index `k`, `detect_fork` reports a fork exactly when one of
the divergent suffixes (local length `len(local)-k`, peer length
`len(peer)-k`) reaches `fork_threshold`, and on success appends a fork
record whose common-ancestor index is `k-1`; below the threshold on both
sides it reports no fork. -/
theorem c5_detect_fork_threshold
    (h : ForkHandler) (peer : List Block) (k : ℕ) (now : ℚ) :
    1 ≤ k → k < h.chain.length → k < peer.length →
    (∀ i, i < k → hashAt h.chain i = hashAt peer i) →
    hashAt h.chain k ≠ hashAt peer k →
    (((h.detect_fork peer now).2 = true) ↔
      (h.fork_threshold ≤ h.chain.length - k ∨
       h.fork_threshold ≤ peer.length - k)) ∧
    ((h.detect_fork peer now).2 = true →
      (h.detect_fork peer now).1.forks = h.forks ++
        [⟨k - 1, hashAt h.chain (k - 1), h.chain.length - k,
          peer.length - k, now⟩]) := by
  intro hk1 hkc hkp hpre hdiv
  have hca : commonAncestorAux h.chain peer 0 none = some (k - 1) := by
    rw [commonAncestorAux_spec k h.chain peer 0 none hkc hkp hpre hdiv,
      if_neg (by omega : ¬ k = 0)]
    simp
  have hguard : ¬ (peer.length < 2 ∨ h.chain.length < 2) := by
    push_neg
    omega
  have hlt : k - 1 < min h.chain.length peer.length - 1 := by omega
  have harc : h.chain.length - (k - 1) - 1 = h.chain.length - k := by omega
  have harp : peer.length - (k - 1) - 1 = peer.length - k := by omega
  have hd : h.detect_fork peer now =
      if h.fork_threshold ≤ h.chain.length - k ∨
          h.fork_threshold ≤ peer.length - k then
        ({h with forks := h.forks ++ [⟨k - 1, hashAt h.chain (k - 1),
          h.chain.length - k, peer.length - k, now⟩]}, true)
      else (h, false) := by
    unfold ForkHandler.detect_fork
    rw [if_neg hguard, hca]
    simp only [hlt, if_true, harc, harp]
  rw [hd]
  by_cases hthr : h.fork_threshold ≤ h.chain.length - k ∨
      h.fork_threshold ≤ peer.length - k
  · rw [if_pos hthr]
    simp [hthr]
  · rw [if_neg hthr]
    simp [hthr]

/-- Claim C6: for a recognised resolution strategy, `resolve_fork` swaps in
the peer chain (and rebuilds the hash index from it) only when the peer
chain passes full re-validation and is strictly greater under the configured
comparator; in every other case — ties included, and in particular an
identical already-adopted chain, where no fork is even detected — the chain
and the hash index are left untouched and the call returns `false`. -/
theorem c6_resolve_fork_swap_conditions (validate : Block → Bool)
    (h : ForkHandler) (peer : List Block) (now : ℚ)
    (h' : ForkHandler) (b : Bool) :
    h.resolution_strategy ∈ ForkHandler.RESOLUTION_STRATEGIES →
    h.resolve_fork validate peer now = .ok (h', b) →
    (b = true → ForkHandler._is_chain_valid validate peer = true ∧
      strictlyBetter h.resolution_strategy h.chain peer = true ∧
      h'.chain = peer ∧ h'.block_hash_map = buildHashMap peer) ∧
    (b = false → h'.chain = h.chain ∧ h'.block_hash_map = h.block_hash_map) := by
  intro hmem hres
  obtain ⟨hc, hm, hs, _⟩ := detect_fork_fields h peer now
  unfold ForkHandler.resolve_fork at hres
  rcases hdf : h.detect_fork peer now with ⟨h1, db⟩
  rw [hdf] at hres hc hm hs
  simp only [] at hres hc hm hs
  cases db with
  | false =>
    rw [if_pos rfl] at hres
    simp only [Except.ok.injEq, Prod.mk.injEq] at hres
    obtain ⟨he, hb⟩ := hres
    subst he; subst hb
    exact ⟨(fun ht => nomatch ht), fun _ => ⟨hc, hm⟩⟩
  | true =>
    rw [if_neg (by decide)] at hres
    simp only [ForkHandler.RESOLUTION_STRATEGIES, List.mem_cons,
      List.mem_singleton, List.not_mem_nil, or_false] at hmem
    rcases hmem with hstr | hstr | hstr
    · rw [hs, hstr] at hres
      rw [if_pos rfl] at hres
      simp only [Except.ok.injEq] at hres
      have hspec := resolve_by_length_spec h1 validate peer h' b hres
      refine ⟨fun ht => ?_, fun hf => ?_⟩
      · obtain ⟨hvalid, hlen, hch, hmap⟩ := hspec.1 ht
        refine ⟨hvalid, ?_, hch, hmap⟩
        rw [strictlyBetter, hstr, if_pos rfl]
        rw [hc] at hlen
        exact decide_eq_true hlen
      · have := hspec.2 hf
        subst this
        exact ⟨hc, hm⟩
    · rw [hs, hstr] at hres
      rw [if_neg (by decide), if_pos rfl] at hres
      simp only [Except.ok.injEq] at hres
      have hspec := resolve_by_difficulty_spec h1 validate peer h' b hres
      refine ⟨fun ht => ?_, fun hf => ?_⟩
      · obtain ⟨hvalid, hlen, hch, hmap⟩ := hspec.1 ht
        refine ⟨hvalid, ?_, hch, hmap⟩
        rw [strictlyBetter, hstr, if_neg (by decide), if_pos rfl]
        rw [hc] at hlen
        exact decide_eq_true hlen
      · have := hspec.2 hf
        subst this
        exact ⟨hc, hm⟩
    · rw [hs, hstr] at hres
      rw [if_neg (by decide), if_neg (by decide), if_pos rfl] at hres
      simp only [Except.ok.injEq] at hres
      have hspec := resolve_by_timestamp_spec h1 validate peer h' b hres
      refine ⟨fun ht => ?_, fun hf => ?_⟩
      · obtain ⟨hvalid, hlen, hch, hmap⟩ := hspec.1 ht
        refine ⟨hvalid, ?_, hch, hmap⟩
        rw [strictlyBetter, hstr, if_neg (by decide), if_neg (by decide),
          if_pos rfl]
        rw [hc] at hlen
        exact decide_eq_true hlen
      · have := hspec.2 hf
        subst this
        exact ⟨hc, hm⟩

/-- After `slashUpdateHistory`, the slashed validator's entry exists and its
`last_slash_time` is the event time. -/
lemma alookup_slashUpdateHistory (l : List (String × ValidatorHistory))
    (v : String) (t : ℚ) :
    (alookup (slashUpdateHistory l v t) v).map ValidatorHistory.last_slash_time =
      some t := by
  induction l with
  | nil => simp [slashUpdateHistory, alookup]
  | cons p rest ih =>
    obtain ⟨k, r⟩ := p
    by_cases hk : k = v
    · subst hk
      simp [slashUpdateHistory, alookup]
    · simp only [slashUpdateHistory, if_neg hk, alookup]
      exact ih

/-- A successful `slash_validator` call appends exactly its event, updates
only the slashed validator's `last_slash_time`, and changes nothing else. -/
lemma slash_ok_shape (s : SlashingMechanism) (v r : String) (a : Option ℚ)
    (bh : Option ℤ) (t : ℚ) (s1 : SlashingMechanism) (e : SlashEvent) :
    s.slash_validator v r a bh t = (s1, .ok e) →
    s1 = {s with
      slashing_events := s.slashing_events ++ [e],
      validator_history := slashUpdateHistory s.validator_history v t} ∧
    e.validator_address = v := by
  intro hres
  unfold SlashingMechanism.slash_validator at hres
  split at hres
  case isTrue hmem =>
    split at hres
    case h_1 hist hlk =>
      split at hres
      case isTrue hcool =>
        rw [Prod.mk.injEq] at hres
        exact absurd hres.2 (by simp)
      case isFalse hcool =>
        unfold slashApply at hres
        rw [Prod.mk.injEq] at hres
        obtain ⟨h1, h2⟩ := hres
        simp only [Except.ok.injEq] at h2
        subst h2
        exact ⟨h1.symm, rfl⟩
    case h_2 hlk =>
      unfold slashApply at hres
      rw [Prod.mk.injEq] at hres
      obtain ⟨h1, h2⟩ := hres
      simp only [Except.ok.injEq] at h2
      subst h2
      exact ⟨h1.symm, rfl⟩
  case isFalse hmem =>
    rw [Prod.mk.injEq] at hres
    exact absurd hres.2 (by simp)

/-- Claim C8: after a successful slash at `t1`, a second `slash_validator`
call for the same validator at any `t2` inside the cooldown window raises
the policy-violation error rather than silently doing nothing: the state —
in particular the event log and the validator's `last_slash_time` — is
returned unchanged, and exactly one `SlashEvent` for that validator is on
record (the failed call appended nothing). -/
theorem c8_second_slash_in_cooldown_rejected
    (s s1 : SlashingMechanism) (v r r2 : String) (a a2 : Option ℚ)
    (bh bh2 : Option ℤ) (t1 t2 : ℚ) (e1 : SlashEvent) :
    s.slash_validator v r a bh t1 = (s1, .ok e1) →
    t2 - t1 < s.slash_cooldown →
    r2 ∈ SlashingMechanism.SLASH_REASONS →
    eventsFor s v = 0 →
    s1.slash_validator v r2 a2 bh2 t2 = (s1, .error .cooldownActive) ∧
    eventsFor s1 v = 1 := by
  intro hok hcool hmem hzero
  obtain ⟨hs1, hev⟩ := slash_ok_shape s v r a bh t1 s1 e1 hok
  have hlk := alookup_slashUpdateHistory s.validator_history v t1
  have hcd : s1.slash_cooldown = s.slash_cooldown := by rw [hs1]
  have hvh : s1.validator_history = slashUpdateHistory s.validator_history v t1 := by
    rw [hs1]
  have hcount : eventsFor s1 v = 1 := by
    have : eventsFor s1 v = eventsFor s v + 1 := by
      rw [hs1]
      unfold eventsFor
      simp [List.filter_append, hev]
    omega
  refine ⟨?_, hcount⟩
  unfold SlashingMechanism.slash_validator
  rw [if_pos hmem]
  split
  case h_1 hist2 heq =>
    rw [hvh] at heq
    rw [heq] at hlk
    simp only [Option.map_some', Option.some_inj] at hlk
    rw [if_pos (show t2 - hist2.last_slash_time < s1.slash_cooldown by
      rw [hlk, hcd]; exact hcool)]
  case h_2 heq =>
    rw [hvh] at heq
    rw [heq] at hlk
    simp at hlk

/-- Claim C9: every string outside the recognised enumerations raises a
configuration error to the caller, never silently defaulting:
`ConsensusFactory.create` on an unknown type tag, `slash_validator` on an
unknown slash reason (leaving the state untouched), and `resolve_fork` on an
unknown resolution strategy once a fork has actually been detected (with no
fork detected the strategy is never consulted and the call just reports
`false`). -/
theorem c9_unknown_enum_raises :
    (∀ (t : String) (d f : Option ℤ), t ∉ ConsensusFactory.CONSENSUS_TYPES →
      ConsensusFactory.create t d f =
        .error ("Unknown consensus type: " ++ t)) ∧
    (∀ (s : SlashingMechanism) (v reason : String) (a : Option ℚ)
      (bh : Option ℤ) (now : ℚ), reason ∉ SlashingMechanism.SLASH_REASONS →
      s.slash_validator v reason a bh now = (s, .error .invalidReason)) ∧
    (∀ (h : ForkHandler) (validate : Block → Bool) (peer : List Block)
      (now : ℚ), h.resolution_strategy ∉ ForkHandler.RESOLUTION_STRATEGIES →
      (h.detect_fork peer now).2 = true →
      h.resolve_fork validate peer now =
        .error ("Unknown resolution strategy: " ++ h.resolution_strategy)) := by
  refine ⟨?_, ?_, ?_⟩
  · intro t d f hmem
    simp only [ConsensusFactory.CONSENSUS_TYPES, List.mem_cons,
      List.not_mem_nil, or_false, not_or] at hmem
    obtain ⟨h1, h2, h3, h4⟩ := hmem
    unfold ConsensusFactory.create
    rw [if_neg h1, if_neg h2, if_neg h3, if_neg h4]
  · intro s v reason a bh now hmem
    unfold SlashingMechanism.slash_validator
    rw [if_neg hmem]
  · intro h validate peer now hmem hdet
    obtain ⟨_, _, hs, _⟩ := detect_fork_fields h peer now
    simp only [ForkHandler.RESOLUTION_STRATEGIES, List.mem_cons,
      List.not_mem_nil, or_false, not_or] at hmem
    obtain ⟨h1, h2, h3⟩ := hmem
    unfold ForkHandler.resolve_fork
    rw [if_neg (by rw [hdet]; simp), hs, if_neg h1, if_neg h2, if_neg h3]

/-- Looking a key up past a prefix that does not contain it. -/
lemma alookup_append_none {α : Type} (l1 l2 : List (String × α)) (k : String)
    (h : alookup l1 k = none) : alookup (l1 ++ l2) k = alookup l2 k := by
  induction l1 with
  | nil => simp
  | cons p rest ih =>
    obtain ⟨k1, v1⟩ := p
    by_cases hk : k1 = k
    · simp [alookup, hk] at h
    · simp only [alookup, if_neg hk] at h
      simp only [List.cons_append, alookup, if_neg hk]
      exact ih h

/-- After `ensureKey`, the key is present, holding its old value or the
default. -/
lemma alookup_ensureKey {α : Type} (l : List (String × α)) (k : String)
    (d : α) : alookup (ensureKey l k d) k = some ((alookup l k).getD d) := by
  unfold ensureKey
  cases h : alookup l k with
  | some v => simp [h]
  | none =>
    simp only [h, Option.isSome_none, Bool.false_eq_true, if_false,
      Option.getD_none]
    rw [alookup_append_none _ _ _ h]
    simp [alookup]

/-- `updKey` rewrites exactly the looked-up value. -/
lemma alookup_updKey_self {α : Type} (l : List (String × α)) (k : String)
    (f : α → α) : alookup (updKey l k f) k = (alookup l k).map f := by
  induction l with
  | nil => simp [updKey, alookup]
  | cons p rest ih =>
    obtain ⟨k1, v1⟩ := p
    by_cases hk : k1 = k
    · subst hk
      simp [updKey, alookup]
    · simp only [updKey, if_neg hk, alookup]
      exact ih

/-- Claim C4 (amended): `stake` enforces `min_stake` on every self-stake,
first or subsequent — acceptance is exactly `amount ≥ 1` plus, for
`staker == validator`, `amount ≥ min_stake` — while a delegator stake
(`staker ≠ validator`) needs only `amount ≥ 1` and is added to that
staker's delegator entry under the validator. -/
theorem c4_min_stake_every_self_stake
    (s : StakingPool) (va sa : String) (amount : ℤ) (now : ℚ) :
    ((s.stake va sa amount now).2 = true ↔
      (1 ≤ amount ∧ (va = sa → s.min_stake ≤ amount))) ∧
    (va ≠ sa → 1 ≤ amount →
      (s.stake va sa amount now).2 = true ∧
      (s.stake va sa amount now).1.get_staker_stake va sa =
        s.get_staker_stake va sa + amount) := by
  constructor
  · unfold StakingPool.stake
    by_cases h1 : amount < 1
    · rw [if_pos h1]
      simp only [Bool.false_eq_true, false_iff, not_and]
      intro ha
      omega
    · rw [if_neg h1]
      by_cases h2 : va = sa ∧ amount < s.min_stake
      · rw [if_pos h2]
        simp only [Bool.false_eq_true, false_iff, not_and]
        intro _ hb
        have := hb h2.1
        omega
      · rw [if_neg h2]
        simp only [true_iff]
        refine ⟨by omega, fun hva => ?_⟩
        by_contra hmin
        exact h2 ⟨hva, by omega⟩
  · intro hne hamt
    have hr : s.stake va sa amount now =
        ({s with
            validator_stakes := ensureKey s.validator_stakes va 0,
            delegator_stakes := updKey (ensureKey s.delegator_stakes va []) va
              (fun inner => updKey (ensureKey inner sa 0) sa (· + amount)),
            total_stake := s.total_stake + amount,
            staking_history := s.staking_history ++
              [⟨va, sa, amount, now, "stake"⟩]}, true) := by
      unfold StakingPool.stake
      rw [if_neg (by omega), if_neg (by rintro ⟨hva, _⟩; exact hne hva)]
      simp only [if_neg hne]
    rw [hr]
    refine ⟨rfl, ?_⟩
    unfold StakingPool.get_staker_stake
    rw [if_neg hne, if_neg hne]
    simp only [alookup_updKey_self, alookup_ensureKey, Option.map_some',
      Option.getD_some]

/-- Claim C2 (amended): an accepted `unstake` request's amount never exceeds
the staker's currently *recorded* staked balance — pending uncompleted
requests are not deducted from the check — and acceptance only enqueues the
request (with `release_time = now + unstaking_lockup`), reducing no balance
yet. -/
theorem c2_unstake_checks_recorded_balance
    (s : StakingPool) (va sa : String) (amount : ℤ) (now : ℚ)
    (s' : StakingPool) :
    s.unstake va sa amount now = (s', true) →
    amount ≤ s.get_staker_stake va sa ∧
    s'.unstaking_queue = s.unstaking_queue ++
      [⟨va, sa, amount, now, now + s.unstaking_lockup, false⟩] := by
  intro hres
  unfold StakingPool.unstake at hres
  split at hres
  case isTrue h =>
    rw [Prod.mk.injEq] at hres
    exact absurd hres.2 (by simp)
  case isFalse h =>
    split at hres
    case h_1 hlk =>
      rw [Prod.mk.injEq] at hres
      exact absurd hres.2 (by simp)
    case h_2 vstake hlk =>
      split at hres
      case isTrue hva =>
        split at hres
        case isTrue hlt =>
          rw [Prod.mk.injEq] at hres
          exact absurd hres.2 (by simp)
        case isFalse hge =>
          rw [Prod.mk.injEq] at hres
          obtain ⟨hs', _⟩ := hres
          subst hs'
          refine ⟨?_, rfl⟩
          unfold StakingPool.get_staker_stake
          rw [if_pos hva, hlk]
          simp only [Option.getD_some]
          omega
      case isFalse hva =>
        split at hres
        case h_1 hlk2 =>
          rw [Prod.mk.injEq] at hres
          exact absurd hres.2 (by simp)
        case h_2 dstake hlk2 =>
          split at hres
          case isTrue hlt =>
            rw [Prod.mk.injEq] at hres
            exact absurd hres.2 (by simp)
          case isFalse hge =>
            rw [Prod.mk.injEq] at hres
            obtain ⟨hs', _⟩ := hres
            subst hs'
            refine ⟨?_, rfl⟩
            unfold StakingPool.get_staker_stake
            rw [if_neg hva, hlk2]
            simp only [Option.getD_some]
            omega

/-- Claim C3 (amended): when `reward_pool = 0` or `total_stake = 0` the call
is a no-op returning no records; otherwise one completed pass resets the
pool to exactly zero (never negative, no residual). The sum of the emitted
record amounts, however, may fall short of the consumed pool: commission is
withheld without a record, each delegator only gets the delegator share
scaled by `stake / (self + delegated)`, and every amount is truncated to an
integer. -/
theorem c3_distribute_rewards_resets_pool (s : StakingPool) (bh : ℤ)
    (now : ℚ) (s' : StakingPool) (ds : List RewardRecord) :
    ((s.reward_pool = 0 ∨ s.total_stake = 0) →
      s.distribute_rewards bh now = .ok (s, [])) ∧
    (¬ (s.reward_pool = 0 ∨ s.total_stake = 0) →
      s.distribute_rewards bh now = .ok (s', ds) →
      s'.reward_pool = 0) := by
  constructor
  · intro h
    unfold StakingPool.distribute_rewards
    rw [if_pos h]
  · intro hn hres
    unfold StakingPool.distribute_rewards at hres
    rw [if_neg hn] at hres
    split at hres
    case h_1 => exact absurd hres (by simp)
    case h_2 ds2 heq =>
      simp only [Except.ok.injEq, Prod.mk.injEq] at hres
      obtain ⟨hs', _⟩ := hres
      rw [← hs']

/-- Claim C1 (amended): in the concrete scenario (total_stake 1000 with
self-stake 700 and one delegator at 300, pool 100, shares 0.7/0.3,
commission 0.1) the pass produces the validator record of
`int(70 − 7) = 63` and a delegator record of `int(30 × 300/1000) = 9` — the
delegator's proportion is its stake over the validator's *total* stake
(0.3), not over the delegated stake alone — and the pool is reset to 0. -/
theorem c1_concrete_reward_scenario :
    rewardScenarioPool.total_stake = 1000 ∧
    rewardScenarioPool.reward_pool = 100 ∧
    rewardScenarioPool.get_staker_stake "v" "v" = 700 ∧
    rewardScenarioPool.get_staker_stake "v" "d" = 300 ∧
    rewardScenarioPool.distribute_rewards 5 9 =
      .ok (rewardScenarioPost, [vRec63, dRec9]) := by
  simp [rewardScenarioPool, rewardScenarioPost, examplePool2, examplePool1,
    StakingPool.init, StakingPool.stake, StakingPool.add_rewards,
    StakingPool.get_staker_stake, StakingPool.distribute_rewards, valRecords,
    delegRecords, ensureKey, updKey, alookup, pyInt, vRec63, dRec9]
  norm_num

/-- Claim C1, counterexample to the claim as stated: the delegator record's
amount is 9, not the claimed 30 (its proportion is 300/1000 = 0.3, not
1.0). -/
theorem c1_counterexample :
    (rewardScenarioPool.distribute_rewards 5 9).map
      (fun p => p.2.map RewardRecord.amount) = .ok [63, 9] ∧
    ¬ ((rewardScenarioPool.distribute_rewards 5 9).map
      (fun p => p.2.map RewardRecord.amount) = .ok [63, 30]) := by
  constructor
  · simp [rewardScenarioPool, examplePool2, examplePool1,
      StakingPool.init, StakingPool.stake, StakingPool.add_rewards,
      StakingPool.distribute_rewards, valRecords, delegRecords, ensureKey,
      updKey, alookup, pyInt, Except.map]
    norm_num
  · simp [rewardScenarioPool, examplePool2, examplePool1,
      StakingPool.init, StakingPool.stake, StakingPool.add_rewards,
      StakingPool.distribute_rewards, valRecords, delegRecords, ensureKey,
      updKey, alookup, pyInt, Except.map]
    norm_num

/-- Claim C3, counterexample to the claim as stated: in the concrete
scenario the emitted amounts sum to 63 + 9 = 72, not the pre-call pool of
100 (commission and rounding remainders are consumed without a record). -/
theorem c3_counterexample :
    rewardScenarioPool.reward_pool = 100 ∧
    (rewardScenarioPool.distribute_rewards 5 9).map
      (fun p => (p.2.map RewardRecord.amount).sum) = .ok 72 ∧
    ¬ ((rewardScenarioPool.distribute_rewards 5 9).map
      (fun p => (p.2.map RewardRecord.amount).sum) = .ok 100) := by
  refine ⟨?_, ?_, ?_⟩ <;>
    simp [rewardScenarioPool, examplePool2, examplePool1,
      StakingPool.init, StakingPool.stake, StakingPool.add_rewards,
      StakingPool.distribute_rewards, valRecords, delegRecords, ensureKey,
      updKey, alookup, pyInt, Except.map] <;>
    norm_num

/-- Claim C4, counterexample to the claim as stated: a validator with a
recorded prior self-stake of 700 still has a below-minimum top-up of 50
rejected (state unchanged) — `min_stake` is checked on every self-stake, not
only the first. -/
theorem c4_counterexample :
    (StakingPool.init.stake "v" "v" 700 0).2 = true ∧
    examplePool1.get_staker_stake "v" "v" = 700 ∧
    (examplePool1.stake "v" "v" 50 1).2 = false ∧
    (examplePool1.stake "v" "v" 50 1).1 = examplePool1 := by
  refine ⟨?_, ?_, ?_, ?_⟩ <;>
    simp [examplePool1, StakingPool.init, StakingPool.stake,
      StakingPool.get_staker_stake, ensureKey, updKey, alookup]

/-- Claim C2, counterexample to the claim as stated: with a recorded
self-stake of 100, two full-amount unstake requests are both accepted (the
check ignores the pending queue), and processing both after the lockup
drives the validator's recorded stake and the global total to −100. -/
theorem c2_counterexample :
    (StakingPool.init.stake "w" "w" 100 0).2 = true ∧
    (unstakePool1.unstake "w" "w" 100 1).2 = true ∧
    (unstakePool2.unstake "w" "w" 100 2).2 = true ∧
    (unstakePool3.process_unstaking 700000).map
      (fun p => (p.1.total_stake, (alookup p.1.validator_stakes "w").getD 0)) =
      .ok (-100, -100) ∧
    ¬ ((0 : ℤ) ≤ -100) := by
  refine ⟨?_, ?_, ?_, ?_, by norm_num⟩ <;>
    (simp [unstakePool3, unstakePool2, unstakePool1, StakingPool.init,
      StakingPool.stake, StakingPool.unstake, StakingPool.process_unstaking,
      processQueue, ensureKey, updKey, removeKey, alookup, Except.map]
     try norm_num [alookup])

/-- Claim C7, counterexample to the claim as stated: with difficulty 3,
change limit 0.2 and a very slow window, the clamped value 2.4 rounds to 2,
which lies *outside* `[3×0.8, 3×1.2] ∩ [1, 20] = [2.4, 3.6]` — the final
integer rounding can leave the claimed intersection. -/
theorem c7_counterexample :
    exampleDA.calculate_new_difficulty slowBlocks 3 = some 2 ∧
    exampleDA.min_difficulty ≤ 2 ∧ (2 : ℤ) ≤ exampleDA.max_difficulty ∧
    ¬ ((3 : ℚ) * (1 - exampleDA.difficulty_change_limit) ≤ ((2 : ℤ) : ℚ)) := by
  refine ⟨?_, by norm_num [exampleDA], by norm_num [exampleDA],
    by norm_num [exampleDA]⟩
  norm_num [exampleDA, slowBlocks, DifficultyAdjuster.calculate_new_difficulty,
    pySliceLast, pyRound, round_eq]

theorem c2_unstake_checks_recorded_balance_witness :
    (100 : ℤ) ≤ unstakePool1.get_staker_stake "w" "w" ∧
    unstakePool2.unstaking_queue = unstakePool1.unstaking_queue ++
      [⟨"w", "w", 100, 1, 1 + unstakePool1.unstaking_lockup, false⟩] :=
  c2_unstake_checks_recorded_balance unstakePool1 "w" "w" 100 1 unstakePool2
    (by simp [unstakePool2, unstakePool1, StakingPool.init, StakingPool.stake,
      StakingPool.unstake, ensureKey, updKey, alookup])

theorem c3_distribute_rewards_resets_pool_witness :
    StakingPool.init.distribute_rewards 1 2 = .ok (StakingPool.init, []) ∧
    rewardScenarioPost.reward_pool = 0 := by
  constructor
  · exact (c3_distribute_rewards_resets_pool StakingPool.init 1 2
      StakingPool.init []).1 (by simp [StakingPool.init])
  · exact (c3_distribute_rewards_resets_pool rewardScenarioPool 5 9
      rewardScenarioPost [vRec63, dRec9]).2
      (by simp [rewardScenarioPool, examplePool2, examplePool1,
        StakingPool.init, StakingPool.stake, StakingPool.add_rewards,
        ensureKey, updKey, alookup, pyInt])
      (by
        simp [rewardScenarioPool, rewardScenarioPost, examplePool2,
          examplePool1, StakingPool.init, StakingPool.stake,
          StakingPool.add_rewards, StakingPool.distribute_rewards, valRecords,
          delegRecords, ensureKey, updKey, alookup, pyInt, vRec63, dRec9]
        norm_num)

theorem c4_min_stake_every_self_stake_witness :
    (StakingPool.init.stake "x" "y" 5 0).2 = true ∧
    (StakingPool.init.stake "x" "y" 5 0).1.get_staker_stake "x" "y" =
      StakingPool.init.get_staker_stake "x" "y" + 5 :=
  (c4_min_stake_every_self_stake StakingPool.init "x" "y" 5 0).2
    (by simp) (by norm_num)

theorem c5_detect_fork_threshold_witness :
    (((exampleFH.detect_fork peerChain4 7).2 = true) ↔
      (exampleFH.fork_threshold ≤ exampleFH.chain.length - 1 ∨
       exampleFH.fork_threshold ≤ peerChain4.length - 1)) ∧
    ((exampleFH.detect_fork peerChain4 7).2 = true →
      (exampleFH.detect_fork peerChain4 7).1.forks = exampleFH.forks ++
        [⟨0, hashAt exampleFH.chain 0, exampleFH.chain.length - 1,
          peerChain4.length - 1, 7⟩]) :=
  c5_detect_fork_threshold exampleFH peerChain4 1 7 (by norm_num)
    (by simp [exampleFH, localChain]) (by simp [peerChain4])
    (by intro i hi
        have hi0 : i = 0 := by omega
        subst hi0
        simp [hashAt, exampleFH, localChain, peerChain4])
    (by simp [hashAt, exampleFH, localChain, peerChain4])

theorem c6_resolve_fork_swap_conditions_witness :
    ForkHandler._is_chain_valid (fun _ => true) peerChain4 = true ∧
    strictlyBetter exampleFH.resolution_strategy exampleFH.chain peerChain4 =
      true ∧
    swappedFH.chain = peerChain4 ∧
    swappedFH.block_hash_map = buildHashMap peerChain4 :=
  (c6_resolve_fork_swap_conditions (fun _ => true) exampleFH peerChain4 7
    swappedFH true (by simp [exampleFH, ForkHandler.RESOLUTION_STRATEGIES])
    (by
      simp [ForkHandler.resolve_fork, ForkHandler.detect_fork,
        ForkHandler._resolve_by_length, ForkHandler._is_chain_valid,
        chainValidFrom, commonAncestorAux, buildHashMap, hashAt, exampleFH,
        swappedFH, forkInfoExample, localChain, peerChain4]
      try norm_num)).1 rfl

theorem c7_calculate_new_difficulty_bounds_witness :
    exampleDA.calculate_new_difficulty [] 5 = some 5 ∧
    ((exampleDA.min_difficulty ≤ 2 ∧ (2 : ℤ) ≤ exampleDA.max_difficulty) ∧
     (((3 : ℤ) : ℚ) * (1 - exampleDA.difficulty_change_limit) - 1/2 ≤
        ((2 : ℤ) : ℚ) ∧
      ((2 : ℤ) : ℚ) ≤
        ((3 : ℤ) : ℚ) * (1 + exampleDA.difficulty_change_limit) + 1/2)) := by
  constructor
  · exact (c7_calculate_new_difficulty_bounds exampleDA [] 5 0).1
      (by simp [exampleDA])
  · have h := (c7_calculate_new_difficulty_bounds exampleDA slowBlocks 3 2).2
      (by norm_num [exampleDA, slowBlocks,
        DifficultyAdjuster.calculate_new_difficulty, pySliceLast, pyRound,
        round_eq])
      (by norm_num [exampleDA, slowBlocks]) (by norm_num [exampleDA])
    exact ⟨h.1, h.2 (by norm_num [exampleDA]) (by norm_num [exampleDA])
      (by norm_num [exampleDA]) (by norm_num [exampleDA])
      (by norm_num [exampleDA])⟩

theorem c8_second_slash_in_cooldown_rejected_witness :
    slashS1.slash_validator "m" "invalid_block" none none 2000 =
      (slashS1, .error .cooldownActive) ∧
    eventsFor slashS1 "m" = 1 :=
  c8_second_slash_in_cooldown_rejected SlashingMechanism.init slashS1 "m"
    "double_signing" "invalid_block" none none none none 1000 2000 slashEv1
    (by
      simp [slashS1, slashEv1, SlashingMechanism.init,
        SlashingMechanism.slash_validator, slashApply, slashUpdateHistory,
        freshHistory, DEFAULT_SLASH_AMOUNTS, alookup,
        SlashingMechanism.SLASH_REASONS]
      norm_num)
    (by norm_num [SlashingMechanism.init])
    (by simp [SlashingMechanism.SLASH_REASONS])
    (by simp [eventsFor, SlashingMechanism.init])

theorem c9_unknown_enum_raises_witness :
    ConsensusFactory.create "raft" none none =
      .error ("Unknown consensus type: " ++ "raft") ∧
    SlashingMechanism.init.slash_validator "m" "laziness" none none 5 =
      (SlashingMechanism.init, .error .invalidReason) ∧
    badStratFH.resolve_fork (fun _ => true) peerChain4 7 =
      .error ("Unknown resolution strategy: " ++
        badStratFH.resolution_strategy) :=
  ⟨c9_unknown_enum_raises.1 "raft" none none
      (by simp [ConsensusFactory.CONSENSUS_TYPES]),
   c9_unknown_enum_raises.2.1 SlashingMechanism.init "m" "laziness" none none 5
      (by simp [SlashingMechanism.SLASH_REASONS]),
   c9_unknown_enum_raises.2.2 badStratFH (fun _ => true) peerChain4 7
      (by simp [badStratFH, ForkHandler.RESOLUTION_STRATEGIES])
      (by simp [ForkHandler.detect_fork, commonAncestorAux, hashAt,
        badStratFH, localChain, peerChain4])⟩

theorem c10_zero_elapsed_division_by_zero_witness :
    exampleDA.calculate_new_difficulty flatBlocks 7 = none :=
  c10_zero_elapsed_division_by_zero exampleDA flatBlocks 7 flatB0 flatB1
    (by norm_num [exampleDA]) (by norm_num [exampleDA, flatBlocks])
    (by simp [exampleDA, flatBlocks]) (by simp [exampleDA, flatBlocks]) rfl

end ChainForge
